import Mathlib

/-!
Verification of the lpshipit tool (lpshipit.py).

The Python source is shallowly embedded: strings are Lean strings
(a Python str is its sequence of characters, here a Lean String and
its list of Char), Python None is modelled with Option, exceptions
that escape a function are modelled with Except, and the interactive
urwid wizard is modelled as a pure function from the CLI flag values,
the chosen merge proposal and the operator answers to the list of
observable effects (prompts shown, git commands issued).
-/

/-! ### Python positional string interpolation

The function build_commit_msg uses a single call of the Python method
str.format with anonymous positional placeholders.  pyFormatAux walks
the template and replaces each "\x7b\x7d" pair with the next argument;
inserted arguments are copied verbatim and are not re-scanned, exactly
as str.format does.  The fixed template of build_commit_msg has as many
placeholders as arguments and no other brace, so the fallthrough cases
(placeholder with no argument left, lone open brace) are unreachable
there; they keep the character and continue, which keeps the function
total. -/
def pyFormatAux : List Char → List String → List Char
  | [], _ => []
  | '{' :: '}' :: rest2, arg :: args2 => arg.data ++ pyFormatAux rest2 args2
  | c :: rest, args => c :: pyFormatAux rest args

/-- Python template.format(args) with positional "\x7b\x7d" placeholders. -/
def pyFormat (template : String) (args : List String) : String :=
  String.mk (pyFormatAux template.data args)

/-- Embedding of build_commit_msg (lpshipit.py lines 86-91): one
str.format call on the fixed commit-message template, applied to the
six argument strings in the source order. -/
def build_commit_msg (author reviewers source_branch target_branch
    commit_message mp_web_link : String) : String :=
  pyFormat "Merge {} into {} [a={}] [r={}]\n\n{}\n\nMP: {}"
    [source_branch, target_branch, author, reviewers, commit_message, mp_web_link]

/-! ### Branch name normalization -/

/-- Embedding of _format_git_branch_name (lpshipit.py lines 44-47).
The Python test branch_name.startswith('refs/heads/') is the prefix
test on the character sequence, and the slice
branch_name[len('refs/heads/'):] drops that many leading characters. -/
def _format_git_branch_name (branch_name : String) : String :=
  if ("refs/heads/" : String).data.isPrefixOf branch_name.data then
    String.mk (branch_name.data.drop ("refs/heads/" : String).data.length)
  else branch_name

/-- C1: build_commit_msg interpolates its six inputs byte for byte into
the template, yielding the header line, a blank line, the description,
a blank line and the MP link, with no other transformation. -/
theorem build_commit_msg_spec (author reviewers source_branch target_branch
    commit_message mp_web_link : String) :
    build_commit_msg author reviewers source_branch target_branch
        commit_message mp_web_link =
      "Merge " ++ (source_branch ++ (" into " ++ (target_branch ++ (" [a=" ++
        (author ++ ("] [r=" ++ (reviewers ++ ("]\n\n" ++ (commit_message ++
        ("\n\nMP: " ++ mp_web_link)))))))))) := by
  have h : build_commit_msg author reviewers source_branch target_branch
      commit_message mp_web_link =
      "Merge " ++ (source_branch ++ (" into " ++ (target_branch ++ (" [a=" ++
        (author ++ ("] [r=" ++ (reviewers ++ ("]\n\n" ++ (commit_message ++
        ("\n\nMP: " ++ (mp_web_link ++ ""))))))))))) := rfl
  rw [h, String.append_empty]

/-- C7: _format_git_branch_name removes the prefix "refs/heads/" exactly
when the input starts with it, returning the remainder, and returns every
other string unchanged. -/
theorem format_git_branch_name_spec :
    (∀ t : String, _format_git_branch_name ("refs/heads/" ++ t) = t) ∧
    (∀ s : String,
      ("refs/heads/" : String).data.isPrefixOf s.data = false →
      _format_git_branch_name s = s) := by
  constructor
  · intro t
    have hpre : ("refs/heads/" : String).data.isPrefixOf
        ("refs/heads/" ++ t).data = true := by
      simp [ List.isPrefixOf_iff_prefix]
    apply String.ext
    simp [_format_git_branch_name, hpre, List.drop_left]
  · intro s h
    simp [_format_git_branch_name, h]

/-- Witness for C7: the normalization at the concrete inputs of the
spec examples. -/
theorem format_git_branch_name_witness :
    _format_git_branch_name "refs/heads/feature-x" = "feature-x" ∧
    _format_git_branch_name "refs/tags/v1" = "refs/tags/v1" :=
  ⟨format_git_branch_name_spec.1 "feature-x",
   format_git_branch_name_spec.2 "refs/tags/v1" (by decide)⟩

/-! ### Data model of the raw Launchpad records

Only the attributes that summarize_mps reads are modelled.  A nullable
attribute of the Launchpad API is an Option; reading an attribute of a
None value raises in Python, which the summarizer model surfaces as an
Except error. -/

/-- A Launchpad person: only the name attribute is read. -/
structure Person where
  name : String
deriving DecidableEq

/-- The comment attached to a vote: only the vote value is read. -/
structure VoteComment where
  vote : String
deriving DecidableEq

/-- A vote (review) on a merge proposal. -/
structure Vote where
  is_pending : Bool
  reviewer : Person
  comment : VoteComment
deriving DecidableEq

/-- A git repository record: only display_name is read. -/
structure GitRepository where
  display_name : String
deriving DecidableEq

/-- A raw merge-proposal record as returned by the review service. -/
structure MergeProposal where
  registrant : Person
  description : Option String
  votes : List Vote
  web_link : String
  source_git_repository : Option GitRepository
  target_git_repository : Option GitRepository
  source_git_path : String
  target_git_path : String
deriving DecidableEq

/-- The flat summary dictionary built for each retained proposal. -/
structure MPSummary where
  author : String
  description : String
  short_description : String
  reviewers : List String
  approval_count : Nat
  web : String
  target_branch : String
  source_branch : String
  target_repo : String
  source_repo : String
deriving DecidableEq

/-! ### Python helpers used by the summarizer -/

/-- Characters the Python method str.splitlines treats as a line
boundary (CR LF is handled as one boundary by pySplitlinesAux). -/
def pyLineBoundary (c : Char) : Bool :=
  c = '\n' || c = '\r' || c = '\x0b' || c = '\x0c' ||
  c = '\x1c' || c = '\x1d' || c = '\x1e' || c = '\x85' ||
  c = '\u2028' || c = '\u2029'

/-- Accumulator pass of str.splitlines: acc holds the characters of the
current line in reverse.  A trailing boundary produces no extra empty
line, and the empty string produces no line at all, as in Python. -/
def pySplitlinesAux : List Char → List Char → List (List Char)
  | [], acc => if acc.isEmpty then [] else [acc.reverse]
  | '\r' :: '\n' :: rest, acc => acc.reverse :: pySplitlinesAux rest []
  | c :: rest, acc =>
    if pyLineBoundary c then acc.reverse :: pySplitlinesAux rest []
    else pySplitlinesAux rest (c :: acc)

/-- The Python method str.splitlines. -/
def pySplitlines (s : String) : List String :=
  (pySplitlinesAux s.data []).map String.mk

/-- Boolean test deciding the Python string comparison a less-or-equal b:
lexicographic on the code points, a proper prefix being smaller. -/
def pyStrLeAux : List Char → List Char → Bool
  | [], _ => true
  | _ :: _, [] => false
  | a :: as, b :: bs =>
    if a < b then true
    else if b < a then false
    else pyStrLeAux as bs

/-- The Python string order as a decidable relation on strings. -/
def pyLe (a b : String) : Prop := pyStrLeAux a.data b.data = true

instance (a b : String) : Decidable (pyLe a b) :=
  inferInstanceAs (Decidable (_ = true))

/-- The Python builtin sorted on a list of strings: a stable sort by the
lexicographic code-point order; every stable sort computes the same
list, so insertion sort is used. -/
def pySorted (l : List String) : List String :=
  l.insertionSort pyLe

/-- The for loop over mp.votes in summarize_mps (lpshipit.py lines
56-60): appends the reviewer name of every non-pending vote to
review_vote_parts and counts the non-pending votes whose comment vote
is the literal string "Approve". -/
def review_step (acc : List String × Nat) (vote : Vote) : List String × Nat :=
  if !vote.is_pending then
    (acc.1 ++ [vote.reviewer.name],
     acc.2 + (if vote.comment.vote == "Approve" then 1 else 0))
  else acc

/-- The loop itself: left fold of review_step over the votes starting
from the empty name list and a zero count. -/
def review_loop (votes : List Vote) : List String × Nat :=
  votes.foldl review_step ([], 0)

/-! ### The summarizer -/

/-- The body of the for loop of summarize_mps (lpshipit.py lines 52-82)
for one raw record: ok none when the record is skipped because its
source git repository is null, ok (some summary) when a summary
dictionary is appended, and error when the Python code raises — the
subscript [0] of splitlines on an empty description (line 69) raises
IndexError, and reading display_name of a null target repository
(line 80) raises AttributeError. -/
def summarize_one (mp : MergeProposal) : Except String (Option MPSummary) :=
  match mp.source_git_repository with
  | none => .ok none
  | some source_repo =>
    let parts := review_loop mp.votes
    let source_branch := _format_git_branch_name mp.source_git_path
    let target_branch := _format_git_branch_name mp.target_git_path
    let description := mp.description.getD ""
    match mp.description with
    | some d =>
      match (pySplitlines d).head? with
      | none => .error "IndexError: list index out of range"
      | some short_description =>
        match mp.target_git_repository with
        | none => .error "AttributeError: NoneType has no attribute display_name"
        | some target_repo =>
          .ok (some {
            author := mp.registrant.name,
            description := description,
            short_description := short_description,
            reviewers := pySorted parts.1,
            approval_count := parts.2,
            web := mp.web_link,
            target_branch := target_branch,
            source_branch := source_branch,
            target_repo := target_repo.display_name,
            source_repo := source_repo.display_name })
    | none =>
      match mp.target_git_repository with
      | none => .error "AttributeError: NoneType has no attribute display_name"
      | some target_repo =>
        .ok (some {
          author := mp.registrant.name,
          description := description,
          short_description := "",
          reviewers := pySorted parts.1,
          approval_count := parts.2,
          web := mp.web_link,
          target_branch := target_branch,
          source_branch := source_branch,
          target_repo := target_repo.display_name,
          source_repo := source_repo.display_name })

/-- Embedding of summarize_mps (lpshipit.py lines 50-83): iterates over
the raw records in order, appending one summary per retained record; a
raised exception aborts the whole call. -/
def summarize_mps : List MergeProposal → Except String (List MPSummary)
  | [] => .ok []
  | mp :: rest =>
    match summarize_one mp with
    | .error e => .error e
    | .ok none => summarize_mps rest
    | .ok (some s) => (summarize_mps rest).map (fun l => s :: l)

/-! ### The Python string order is total and transitive -/

/-- Totality of the Python string comparison. -/
theorem pyStrLeAux_total (as : List Char) : ∀ bs,
    pyStrLeAux as bs = true ∨ pyStrLeAux bs as = true := by
  induction as with
  | nil => intro bs; left; rfl
  | cons a as ih =>
    intro bs
    match bs with
    | [] => right; rfl
    | b :: bs =>
      rcases lt_trichotomy a b with hab | hab | hab
      · left; simp [pyStrLeAux, hab]
      · subst hab
        rcases ih bs with h | h
        · left; simp [pyStrLeAux, lt_self_iff_false, h]
        · right; simp [pyStrLeAux, lt_self_iff_false, h]
      · right; simp [pyStrLeAux, hab]

/-- Transitivity of the Python string comparison. -/
theorem pyStrLeAux_trans (as : List Char) : ∀ bs cs,
    pyStrLeAux as bs = true → pyStrLeAux bs cs = true →
    pyStrLeAux as cs = true := by
  induction as with
  | nil => intro bs cs _ _; rfl
  | cons a as ih =>
    intro bs cs h1 h2
    match bs, cs with
    | [], _ => simp [pyStrLeAux] at h1
    | _ :: _, [] => simp [pyStrLeAux] at h2
    | b :: bs, c :: cs =>
      simp only [pyStrLeAux] at h1 h2 ⊢
      rcases lt_trichotomy a b with hab | hab | hab
      · rcases lt_trichotomy b c with hbc | hbc | hbc
        · simp [lt_trans hab hbc]
        · subst hbc; simp [hab]
        · rw [if_neg (asymm hbc), if_pos hbc] at h2; simp at h2
      · subst hab
        rcases lt_trichotomy a c with hac | hac | hac
        · simp [hac]
        · subst hac
          rw [if_neg (lt_irrefl a), if_neg (lt_irrefl a)] at h1 h2 ⊢
          exact ih bs cs h1 h2
        · rw [if_neg (asymm hac), if_pos hac] at h2; simp at h2
      · rw [if_neg (asymm hab), if_pos hab] at h1; simp at h1

instance : IsTotal String pyLe := ⟨fun a b => pyStrLeAux_total a.data b.data⟩

instance : IsTrans String pyLe := ⟨fun a b c => pyStrLeAux_trans a.data b.data c.data⟩

/-! ### What the vote loop computes -/

/-- The vote loop, generalized over the accumulator: it appends the
non-pending reviewer names in order and adds the count of non-pending
Approve votes. -/
theorem review_loop_aux (votes : List Vote) : ∀ acc : List String × Nat,
    List.foldl review_step acc votes =
      (acc.1 ++ (votes.filter (fun v => !v.is_pending)).map
          (fun v => v.reviewer.name),
       acc.2 + (votes.filter
          (fun v => !v.is_pending && v.comment.vote == "Approve")).length) := by
  induction votes with
  | nil => intro acc; simp
  | cons v rest ih =>
    intro acc
    rw [List.foldl_cons, ih]
    cases hp : v.is_pending with
    | true => simp [review_step, hp, List.filter_cons]
    | false =>
      by_cases ha : v.comment.vote = "Approve"
      · simp [review_step, hp, ha, List.filter_cons, List.append_assoc]
        omega
      · simp [review_step, hp, ha, List.filter_cons, List.append_assoc]

/-- review_loop yields the non-pending reviewer names in vote order and
the number of non-pending Approve votes. -/
theorem review_loop_spec (votes : List Vote) :
    review_loop votes =
      ((votes.filter (fun v => !v.is_pending)).map (fun v => v.reviewer.name),
       (votes.filter
          (fun v => !v.is_pending && v.comment.vote == "Approve")).length) := by
  have h := review_loop_aux votes ([], 0)
  simpa [review_loop] using h

/-- On every successfully summarized record the reviewers field is the
sorted first component and approval_count the second component of the
vote loop. -/
theorem summarize_one_fields (mp : MergeProposal) (s : MPSummary)
    (h : summarize_one mp = .ok (some s)) :
    s.reviewers = pySorted (review_loop mp.votes).1 ∧
    s.approval_count = (review_loop mp.votes).2 := by
  unfold summarize_one at h
  cases hsrc : mp.source_git_repository with
  | none => simp only [hsrc] at h; simp at h
  | some src =>
    simp only [hsrc] at h
    cases hdesc : mp.description with
    | none =>
      simp only [hdesc] at h
      cases htgt : mp.target_git_repository with
      | none => simp only [htgt] at h; simp at h
      | some tgt =>
        simp only [htgt, Except.ok.injEq, Option.some.injEq] at h
        subst h
        exact ⟨rfl, rfl⟩
    | some d =>
      simp only [hdesc] at h
      cases hhead : (pySplitlines d).head? with
      | none => simp only [hhead] at h; simp at h
      | some first =>
        simp only [hhead] at h
        cases htgt : mp.target_git_repository with
        | none => simp only [htgt] at h; simp at h
        | some tgt =>
          simp only [htgt, Except.ok.injEq, Option.some.injEq] at h
          subst h
          exact ⟨rfl, rfl⟩

/-- summarize_one skips a record (returns ok none) exactly when the
source git repository is null. -/
theorem summarize_one_skip_iff (mp : MergeProposal) :
    summarize_one mp = .ok none ↔ mp.source_git_repository = none := by
  constructor
  · intro h
    cases hsrc : mp.source_git_repository with
    | none => rfl
    | some src =>
      exfalso
      unfold summarize_one at h
      simp only [hsrc] at h
      cases hdesc : mp.description with
      | none =>
        simp only [hdesc] at h
        cases htgt : mp.target_git_repository with
        | none => simp only [htgt] at h; simp at h
        | some tgt => simp only [htgt] at h; simp at h
      | some d =>
        simp only [hdesc] at h
        cases hhead : (pySplitlines d).head? with
        | none => simp only [hhead] at h; simp at h
        | some first =>
          simp only [hhead] at h
          cases htgt : mp.target_git_repository with
          | none => simp only [htgt] at h; simp at h
          | some tgt => simp only [htgt] at h; simp at h
  · intro h
    unfold summarize_one
    simp only [h]

/-! ### Concrete records used by witnesses and counterexamples -/

/-- A retained record: one completed Approve, one pending vote, one
completed non-Approve vote, a two-line description. -/
def sampleMP : MergeProposal :=
  { registrant := { name := "alice" },
    description := some "Fixes bug\nDetails here",
    votes :=
      [{ is_pending := false, reviewer := { name := "carol" },
         comment := { vote := "Approve" } },
       { is_pending := true, reviewer := { name := "dave" },
         comment := { vote := "Approve" } },
       { is_pending := false, reviewer := { name := "bob" },
         comment := { vote := "Needs Information" } }],
    web_link := "https://example/mp/1",
    source_git_repository := some { display_name := "repoA" },
    target_git_repository := some { display_name := "repoB" },
    source_git_path := "refs/heads/feature-x",
    target_git_path := "refs/heads/main" }

/-- The summary the code computes for sampleMP. -/
def sampleSummary : MPSummary :=
  { author := "alice", description := "Fixes bug\nDetails here",
    short_description := "Fixes bug", reviewers := ["bob", "carol"],
    approval_count := 1, web := "https://example/mp/1",
    target_branch := "main", source_branch := "feature-x",
    target_repo := "repoB", source_repo := "repoA" }

/-- A record without a source git repository: the summarizer skips it. -/
def skippedMP : MergeProposal :=
  { registrant := { name := "erin" }, description := none, votes := [],
    web_link := "https://example/mp/2", source_git_repository := none,
    target_git_repository := none, source_git_path := "s",
    target_git_path := "t" }

/-- C3: on every record retained by the summarizer, approval_count is
the number of votes that are not pending and whose comment vote is the
literal, case-sensitive string Approve, and the reviewers are drawn
exactly from the non-pending votes, so pending votes contribute to
neither field. -/
theorem approval_count_spec (mp : MergeProposal) (s : MPSummary)
    (h : summarize_one mp = .ok (some s)) :
    s.approval_count =
      (mp.votes.filter
        (fun v => !v.is_pending && v.comment.vote == "Approve")).length ∧
    s.reviewers.Perm
      ((mp.votes.filter (fun v => !v.is_pending)).map
        (fun v => v.reviewer.name)) := by
  obtain ⟨hrev, hcnt⟩ := summarize_one_fields mp s h
  have hrl := review_loop_spec mp.votes
  constructor
  · rw [hcnt, hrl]
  · rw [hrev, hrl]
    exact List.perm_insertionSort pyLe _

/-- Witness for C3 at sampleMP: one of three votes is a non-pending
Approve, and the reviewers come from the two non-pending votes. -/
theorem approval_count_witness :
    sampleSummary.approval_count =
      (sampleMP.votes.filter
        (fun v => !v.is_pending && v.comment.vote == "Approve")).length ∧
    sampleSummary.reviewers.Perm
      ((sampleMP.votes.filter (fun v => !v.is_pending)).map
        (fun v => v.reviewer.name)) :=
  approval_count_spec sampleMP sampleSummary rfl

/-- C4 as amended: on every record retained by the summarizer the
reviewers field is the list of reviewer names of the non-pending votes,
sorted ascending by the Python string order — a sorted permutation of
those names, duplicates included; it is not de-duplicated. -/
theorem reviewers_sorted_spec (mp : MergeProposal) (s : MPSummary)
    (h : summarize_one mp = .ok (some s)) :
    List.Sorted pyLe s.reviewers ∧
    s.reviewers.Perm
      ((mp.votes.filter (fun v => !v.is_pending)).map
        (fun v => v.reviewer.name)) := by
  obtain ⟨hrev, -⟩ := summarize_one_fields mp s h
  have hrl := review_loop_spec mp.votes
  constructor
  · rw [hrev]
    exact List.sorted_insertionSort pyLe _
  · rw [hrev, hrl]
    exact List.perm_insertionSort pyLe _

/-- A retained record on which the same reviewer cast two completed
votes. -/
def dupVoteMP : MergeProposal :=
  { registrant := { name := "alice" },
    description := some "Fix",
    votes :=
      [{ is_pending := false, reviewer := { name := "bob" },
         comment := { vote := "Approve" } },
       { is_pending := false, reviewer := { name := "bob" },
         comment := { vote := "Approve" } }],
    web_link := "w",
    source_git_repository := some { display_name := "r1" },
    target_git_repository := some { display_name := "r2" },
    source_git_path := "s", target_git_path := "t" }

/-- The summary the code computes for dupVoteMP: the reviewer name bob
appears twice. -/
def dupVoteSummary : MPSummary :=
  { author := "alice", description := "Fix", short_description := "Fix",
    reviewers := ["bob", "bob"], approval_count := 2, web := "w",
    target_branch := "t", source_branch := "s",
    target_repo := "r2", source_repo := "r1" }

/-- Counterexample to C4 as stated: the summarizer keeps duplicate
reviewer names when the same reviewer cast two non-pending votes, so
the reviewers field is not a duplicate-free set. -/
theorem reviewers_dup_counterexample :
    summarize_one dupVoteMP = .ok (some dupVoteSummary) ∧
    ¬ dupVoteSummary.reviewers.Nodup :=
  ⟨rfl, by decide⟩

/-- Witness for the amended C4 at sampleMP. -/
theorem reviewers_sorted_witness :
    List.Sorted pyLe sampleSummary.reviewers ∧
    sampleSummary.reviewers.Perm
      ((sampleMP.votes.filter (fun v => !v.is_pending)).map
        (fun v => v.reviewer.name)) :=
  reviewers_sorted_spec sampleMP sampleSummary rfl

/-- A retained record whose description is the empty, non-null
string. -/
def emptyDescMP : MergeProposal :=
  { registrant := { name := "alice" }, description := some "",
    votes := [], web_link := "w",
    source_git_repository := some { display_name := "r1" },
    target_git_repository := some { display_name := "r2" },
    source_git_path := "s", target_git_path := "t" }

/-- C5 (code bug): on a retained record whose description is the empty
non-null string the summarizer does not succeed and no summary record
is produced; the expression mp.description.splitlines()[0] at
lpshipit.py line 69 raises IndexError because splitlines of the empty
string is the empty list, while the branch one line above deliberately
turns a null description into empty-string fields. -/
theorem empty_description_raises :
    summarize_mps [emptyDescMP] = .error "IndexError: list index out of range" :=
  rfl

/-- C6: a successful summarizer run yields one summary per input record
whose source git repository is non-null, in input order (stated by the
element-wise correspondence of the filtered inputs and the output), and
the output length is the number of such records. -/
theorem summarize_mps_retained (mps : List MergeProposal)
    (out : List MPSummary) (h : summarize_mps mps = .ok out) :
    List.Forall₂ (fun mp s => summarize_one mp = .ok (some s))
      (mps.filter (fun mp => mp.source_git_repository.isSome)) out ∧
    out.length =
      (mps.filter (fun mp => mp.source_git_repository.isSome)).length := by
  have hf : List.Forall₂ (fun mp s => summarize_one mp = .ok (some s))
      (mps.filter (fun mp => mp.source_git_repository.isSome)) out := by
    induction mps generalizing out with
    | nil =>
      simp only [summarize_mps] at h
      obtain rfl : ([] : List MPSummary) = out := by simpa using h
      simp
    | cons mp rest ih =>
      simp only [summarize_mps] at h
      cases hone : summarize_one mp with
      | error e => rw [hone] at h; simp at h
      | ok o =>
        rw [hone] at h
        cases o with
        | none =>
          have hsrc : mp.source_git_repository = none :=
            (summarize_one_skip_iff mp).mp hone
          simp only [List.filter_cons, hsrc, Option.isSome_none,
            Bool.false_eq_true, if_false]
          exact ih out h
        | some s =>
          cases hrest : summarize_mps rest with
          | error e => rw [hrest] at h; simp [Except.map] at h
          | ok outRest =>
            rw [hrest] at h
            simp only [Except.map, Except.ok.injEq] at h
            subst h
            have hsrc : mp.source_git_repository.isSome = true := by
              cases hs : mp.source_git_repository with
              | none =>
                exfalso
                have : summarize_one mp = .ok none :=
                  (summarize_one_skip_iff mp).mpr hs
                rw [hone] at this
                simp at this
              | some r => rfl
            simp only [List.filter_cons, hsrc, if_true]
            exact List.Forall₂.cons hone (ih outRest hrest)
  exact ⟨hf, (List.Forall₂.length_eq hf).symm⟩

/-- Witness for C6: a run over one skipped and one retained record
produces exactly the summary of the retained record. -/
theorem summarize_mps_retained_witness :
    List.Forall₂ (fun mp s => summarize_one mp = .ok (some s))
      (([skippedMP, sampleMP].filter
        (fun mp => mp.source_git_repository.isSome))) [sampleSummary] ∧
    ([sampleSummary] : List MPSummary).length =
      ([skippedMP, sampleMP].filter
        (fun mp => mp.source_git_repository.isSome)).length :=
  summarize_mps_retained [skippedMP, sampleMP] [sampleSummary] rfl

/-! ### The selection wizard

The urwid callbacks of lpshipit (lpshipit.py lines 131-250) are
embedded as pure functions from the already-resolved inputs to the
list of observable effects of one wizard run: prompts shown, the git
checkout, the git merge command, the final summary screen.  The click
flag values source_branch and target_branch are Option String (None
when the flag is absent); user_source and user_target are the branches
the operator would pick when the corresponding prompt is shown. -/

/-- Truthiness of a Python optional string: None and the empty string
are falsy.  The wizard tests flags with the Python expressions
not source_branch and not target_branch. -/
def pyTruthy : Option String → Bool
  | none => false
  | some s => !(s == "")

/-- One observable effect of a wizard run. -/
inductive Effect
  | showSourcePrompt
  | showTargetPrompt
  | checkout (branch : String)
  | gitExecute (args : List String)
  | showMergeSummary (text : String)
deriving DecidableEq

/-- Embedding of the callback target_branch_chosen (lpshipit.py lines
140-187): when the target differs from the source it builds the commit
message (reviewers joined with a bare comma), checks out the target
branch, runs git merge --no-ff with the message and shows the merge
summary screen; when they are equal it does nothing. -/
def target_branch_chosen (chosen_mp : MPSummary)
    (source_branch target_branch : String) : List Effect :=
  if target_branch ≠ source_branch then
    [Effect.checkout target_branch,
     Effect.gitExecute ["git", "merge", "--no-ff", source_branch, "-m",
       build_commit_msg chosen_mp.author
         (String.intercalate "," chosen_mp.reviewers)
         source_branch target_branch chosen_mp.description chosen_mp.web],
     Effect.showMergeSummary
       (source_branch ++ " has been merged in to " ++ target_branch ++
        " \nChanges have _NOT_ been pushed")]
  else []

/-- Embedding of the callback source_branch_chosen (lpshipit.py lines
136-221): when the target flag is falsy the target prompt is shown and
the operator answer user_target is passed on, otherwise the flag value
is passed to target_branch_chosen directly. -/
def source_branch_chosen (chosen_mp : MPSummary)
    (target_branch_flag : Option String)
    (chosen_source_branch user_target : String) : List Effect :=
  if !pyTruthy target_branch_flag then
    Effect.showTargetPrompt ::
      target_branch_chosen chosen_mp chosen_source_branch user_target
  else
    target_branch_chosen chosen_mp chosen_source_branch
      (target_branch_flag.getD "")

/-- Embedding of the callback mp_chosen (lpshipit.py lines 131-250):
when the source flag is falsy the source prompt is shown and the
operator answer user_source is passed on, otherwise the flag value is
passed to source_branch_chosen directly. -/
def mp_chosen (source_branch_flag target_branch_flag : Option String)
    (chosen_mp : MPSummary) (user_source user_target : String) :
    List Effect :=
  if !pyTruthy source_branch_flag then
    Effect.showSourcePrompt ::
      source_branch_chosen chosen_mp target_branch_flag user_source
        user_target
  else
    source_branch_chosen chosen_mp target_branch_flag
      (source_branch_flag.getD "") user_target

/-- The source branch a run resolves to: the flag when truthy, else the
branch picked at the prompt. -/
def resolved_source_branch (source_branch_flag : Option String)
    (user_source : String) : String :=
  if pyTruthy source_branch_flag then source_branch_flag.getD ""
  else user_source

/-- The target branch a run resolves to. -/
def resolved_target_branch (target_branch_flag : Option String)
    (user_target : String) : String :=
  if pyTruthy target_branch_flag then target_branch_flag.getD ""
  else user_target

/-- C2: whenever the resolved source and target branches are equal —
whether either came from a flag or from a prompt — the wizard run
performs no checkout, no git command and never reaches the
merge-summary screen. -/
theorem same_branch_no_merge
    (source_branch_flag target_branch_flag : Option String)
    (chosen_mp : MPSummary) (user_source user_target : String)
    (h : resolved_target_branch target_branch_flag user_target =
         resolved_source_branch source_branch_flag user_source) :
    (∀ b, Effect.checkout b ∉
        mp_chosen source_branch_flag target_branch_flag chosen_mp
          user_source user_target) ∧
    (∀ args, Effect.gitExecute args ∉
        mp_chosen source_branch_flag target_branch_flag chosen_mp
          user_source user_target) ∧
    (∀ t, Effect.showMergeSummary t ∉
        mp_chosen source_branch_flag target_branch_flag chosen_mp
          user_source user_target) := by
  unfold resolved_source_branch resolved_target_branch at h
  unfold mp_chosen source_branch_chosen
  cases hsf : pyTruthy source_branch_flag <;>
    cases htf : pyTruthy target_branch_flag <;>
    simp [hsf, htf] at h <;>
    simp [hsf, htf, target_branch_chosen, h]

/-- Witness for C2: both branches supplied as the flag main; the run
shows no prompt and produces no effect at all. -/
theorem same_branch_no_merge_witness :
    (∀ b, Effect.checkout b ∉
        mp_chosen (some "main") (some "main") sampleSummary "x" "y") ∧
    (∀ args, Effect.gitExecute args ∉
        mp_chosen (some "main") (some "main") sampleSummary "x" "y") ∧
    (∀ t, Effect.showMergeSummary t ∉
        mp_chosen (some "main") (some "main") sampleSummary "x" "y") :=
  same_branch_no_merge (some "main") (some "main") sampleSummary "x" "y" rfl

/-- C10: a flag supplied as the empty string behaves exactly like an
absent flag: the run is unchanged and the corresponding interactive
branch prompt is shown rather than bypassed. -/
theorem empty_flag_is_unset (target_branch_flag : Option String)
    (chosen_mp : MPSummary) (user_source user_target : String) :
    (mp_chosen (some "") target_branch_flag chosen_mp user_source
        user_target =
      mp_chosen none target_branch_flag chosen_mp user_source
        user_target ∧
     Effect.showSourcePrompt ∈
      mp_chosen (some "") target_branch_flag chosen_mp user_source
        user_target) ∧
    (∀ source_branch_flag : Option String,
      mp_chosen source_branch_flag (some "") chosen_mp user_source
          user_target =
        mp_chosen source_branch_flag none chosen_mp user_source
          user_target ∧
      Effect.showTargetPrompt ∈
        mp_chosen source_branch_flag (some "") chosen_mp user_source
          user_target) := by
  refine ⟨⟨rfl, ?_⟩, fun source_branch_flag => ⟨rfl, ?_⟩⟩
  · simp [mp_chosen, pyTruthy]
  · simp only [mp_chosen, source_branch_chosen]
    split <;> simp [pyTruthy]

/-! ### The proposal selection screen -/

/-- An entry of an urwid SimpleFocusListWalker as far as this tool is
concerned: a text line, a divider, or a selectable button. -/
inductive UrwidItem
  | text (s : String)
  | divider
  | button (label : String)
deriving DecidableEq

/-- Selectability test: only buttons are selectable. -/
def UrwidItem.isButton : UrwidItem → Bool
  | .button _ => true
  | _ => false

/-- The label each summary is formatted into on the selection screen
(lpshipit.py lines 114-120): the named str.format fields are direct
field reads of the summary, and str_reviewers joins the reviewers with
a bare comma. -/
def mp_label (mp : MPSummary) : String :=
  mp.source_repo ++ "/" ++ mp.source_branch ++
  "\n->" ++ mp.target_repo ++ "/" ++ mp.target_branch ++
  "\n    " ++ mp.short_description ++
  "\n    " ++ toString mp.approval_count ++ " approvals (" ++
  String.intercalate "," mp.reviewers ++ ")" ++
  "\n    " ++ mp.web

/-- Insertion into a Python dict kept as an ordered association list:
an existing key keeps its position and gets the new value, a new key is
appended at the end. -/
def dict_insert (k : String) (v : MPSummary) :
    List (String × MPSummary) → List (String × MPSummary)
  | [] => [(k, v)]
  | (k2, v2) :: rest =>
    if k2 = k then (k2, v) :: rest
    else (k2, v2) :: dict_insert k v rest

/-- The dict comprehension mp_options (lpshipit.py lines 114-122): one
entry per distinct label, keyed by the formatted label; a later summary
with the same label overwrites the earlier value. -/
def mp_options (mps : List MPSummary) : List (String × MPSummary) :=
  mps.foldl (fun d mp => dict_insert (mp_label mp) mp d) []

/-- The proposal selection listwalker (lpshipit.py lines 252-261): a
title, a divider, then one button per mp_options entry. -/
def mp_selection_listwalker (mps : List MPSummary) : List UrwidItem :=
  UrwidItem.text "Merge Proposal to Merge" :: UrwidItem.divider ::
    (mp_options mps).map (fun e => UrwidItem.button e.1)

/-- The keys of a dict after insertion: unchanged when the key is
already present, the key appended otherwise. -/
theorem dict_insert_keys (k : String) (v : MPSummary)
    (d : List (String × MPSummary)) :
    (dict_insert k v d).map Prod.fst =
      if k ∈ d.map Prod.fst then d.map Prod.fst
      else d.map Prod.fst ++ [k] := by
  induction d with
  | nil => simp [dict_insert]
  | cons p rest ih =>
    obtain ⟨k2, v2⟩ := p
    by_cases hk : k2 = k
    · subst hk
      simp [dict_insert]
    · by_cases hmem : k ∈ rest.map Prod.fst <;>
        simp [dict_insert, hk, ih, hmem, Ne.symm hk]

/-- The fold building mp_options, generalized over the dict built so
far: the size of the final dict is the number of distinct keys fed in. -/
theorem mp_options_aux (mps : List MPSummary) :
    ∀ d : List (String × MPSummary), (d.map Prod.fst).Nodup →
      (List.foldl (fun d mp => dict_insert (mp_label mp) mp d) d mps).length =
        ((d.map Prod.fst).toFinset ∪ (mps.map mp_label).toFinset).card := by
  induction mps with
  | nil =>
    intro d hnd
    simp [List.toFinset_card_of_nodup hnd]
  | cons mp rest ih =>
    intro d hnd
    rw [List.foldl_cons]
    have hkeys := dict_insert_keys (mp_label mp) mp d
    have hnd2 : ((dict_insert (mp_label mp) mp d).map Prod.fst).Nodup := by
      rw [hkeys]
      by_cases hmem : mp_label mp ∈ d.map Prod.fst
      · simpa [hmem] using hnd
      · simp only [hmem, if_false]
        simp [List.nodup_append, hnd, hmem]
    rw [ih _ hnd2]
    have hset : ((dict_insert (mp_label mp) mp d).map Prod.fst).toFinset ∪
        (rest.map mp_label).toFinset =
        (d.map Prod.fst).toFinset ∪ ((mp :: rest).map mp_label).toFinset := by
      rw [hkeys, List.map_cons, List.toFinset_cons]
      by_cases hmem : mp_label mp ∈ d.map Prod.fst
      · rw [if_pos hmem, Finset.union_insert,
          Finset.insert_eq_self.mpr
            (Finset.mem_union_left _ (List.mem_toFinset.mpr hmem))]
      · rw [if_neg hmem, List.toFinset_append, Finset.union_assoc,
          Finset.insert_eq]
        congr 1
    rw [hset]

/-- C8 as amended: the selection screen has one selectable entry per
distinct formatted label, so summaries whose labels collide are
presented as a single entry and the entry count is the number of
distinct labels, not the number of summaries. -/
theorem mp_selection_entry_count (mps : List MPSummary) :
    ((mp_selection_listwalker mps).filter UrwidItem.isButton).length =
      (mps.map mp_label).toFinset.card := by
  have h1 : ∀ l : List (String × MPSummary),
      ((l.map (fun e => UrwidItem.button e.1)).filter
        UrwidItem.isButton).length = l.length := by
    intro l
    induction l with
    | nil => rfl
    | cons p rest ih => simpa [UrwidItem.isButton] using ih
  unfold mp_selection_listwalker
  simp only [List.filter_cons]
  simp only [UrwidItem.isButton]
  rw [if_neg (by simp), if_neg (by simp), h1]
  have h2 := mp_options_aux mps [] (by simp)
  simpa [mp_options] using h2

/-- One of two summaries that share a label but differ in author and
full description (neither appears in the label). -/
def labelCloneA : MPSummary :=
  { author := "alice", description := "d1", short_description := "Fix",
    reviewers := ["bob"], approval_count := 1, web := "w",
    target_branch := "main", source_branch := "feature",
    target_repo := "r", source_repo := "q" }

/-- The other one: a distinct summary with the same label. -/
def labelCloneB : MPSummary :=
  { labelCloneA with author := "zoe", description := "d2" }

/-- Counterexample to C8 as stated: two distinct summaries whose labels
coincide yield one selectable entry, not two. -/
theorem mp_selection_collision_counterexample :
    labelCloneA ≠ labelCloneB ∧
    ((mp_selection_listwalker [labelCloneA, labelCloneB]).filter
      UrwidItem.isButton).length = 1 :=
  ⟨by decide, rfl⟩

/-! ### Branch selection default focus -/

/-- The branch menu listwalker of the source and target steps
(lpshipit.py lines 192-196 and 225-227): a title, a divider, then one
button per local branch in order, so the button of branch number i
(counting from 0) sits at listwalker index 2 + i. -/
def branch_listwalker (title : String) (local_branches : List String) :
    List UrwidItem :=
  UrwidItem.text title :: UrwidItem.divider ::
    local_branches.map UrwidItem.button

/-- The focus loop of the branch steps (lpshipit.py lines 197-213 and
228-242): focus_counter starts at 1 and is incremented before each
button, so the button of branch number i is reached at counter value
2 + i; a branch equal to the proposal branch always overwrites focus,
a branch equal to the checked out branch sets it only while focus is
still None. -/
def focus_loop : List String → String → String → Nat → Option Nat → Option Nat
  | [], _, _, _, focus => focus
  | local_branch :: rest, mp_branch, checkedout_branch, focus_counter, focus =>
    let focus_counter2 := focus_counter + 1
    let focus2 :=
      if local_branch = mp_branch then some focus_counter2 else focus
    let focus3 :=
      if local_branch = checkedout_branch ∧ focus2 = none then
        some focus_counter2
      else focus2
    focus_loop rest mp_branch checkedout_branch focus_counter2 focus3

/-- The focus of a branch step: the loop started at counter 1 with no
focus (lpshipit.py lines 228-229). -/
def compute_focus (local_branches : List String)
    (mp_branch checkedout_branch : String) : Option Nat :=
  focus_loop local_branches mp_branch checkedout_branch 1 none

/-- Once focus is set it can only change at an occurrence of the
proposal branch: without one it survives the rest of the loop. -/
theorem focus_loop_some (mp_branch checkedout_branch : String) :
    ∀ (bs : List String) (counter f : Nat), mp_branch ∉ bs →
      focus_loop bs mp_branch checkedout_branch counter (some f) = some f := by
  intro bs
  induction bs with
  | nil => intro counter f _; rfl
  | cons b rest ih =>
    intro counter f h
    simp only [List.mem_cons, not_or] at h
    obtain ⟨h1, h2⟩ := h
    have hb1 : ¬ (b = mp_branch) := fun hb => h1 hb.symm
    have hstep : focus_loop (b :: rest) mp_branch checkedout_branch counter
        (some f) =
        focus_loop rest mp_branch checkedout_branch (counter + 1) (some f) := by
      simp [focus_loop, hb1]
    rw [hstep]
    exact ih _ _ h2

/-- When the proposal branch occurs in a duplicate-free branch list the
loop focuses its position, whatever the starting focus was. -/
theorem focus_loop_mp_found (mp_branch checkedout_branch : String) :
    ∀ (bs : List String) (counter : Nat) (f : Option Nat), bs.Nodup →
      mp_branch ∈ bs →
      focus_loop bs mp_branch checkedout_branch counter f =
        some (counter + 1 + bs.indexOf mp_branch) := by
  intro bs
  induction bs with
  | nil => intro counter f _ h; simp at h
  | cons b rest ih =>
    intro counter f hnd hmem
    by_cases hb : b = mp_branch
    · subst hb
      have hnotin : b ∉ rest := (List.nodup_cons.mp hnd).1
      have hstep : focus_loop (b :: rest) b checkedout_branch counter f =
          focus_loop rest b checkedout_branch (counter + 1)
            (some (counter + 1)) := by
        simp [focus_loop]
      rw [hstep, focus_loop_some _ _ rest _ _ hnotin]
      simp [List.indexOf_cons_self]
    · have hmem2 : mp_branch ∈ rest := by
        cases List.mem_cons.mp hmem with
        | inl h => exact absurd h.symm hb
        | inr h => exact h
      have hnd2 := (List.nodup_cons.mp hnd).2
      simp only [focus_loop]
      rw [ih _ _ hnd2 hmem2]
      simp only [Option.some.injEq]
      rw [List.indexOf_cons_ne _ hb]
      omega

/-- When the proposal branch is absent and the checked out branch
occurs, the loop focuses the first occurrence of the checked out
branch. -/
theorem focus_loop_checkedout (mp_branch checkedout_branch : String) :
    ∀ (bs : List String) (counter : Nat), mp_branch ∉ bs →
      checkedout_branch ∈ bs →
      focus_loop bs mp_branch checkedout_branch counter none =
        some (counter + 1 + bs.indexOf checkedout_branch) := by
  intro bs
  induction bs with
  | nil => intro counter _ h; simp at h
  | cons b rest ih =>
    intro counter hnm hco
    simp only [List.mem_cons, not_or] at hnm
    obtain ⟨h1, h2⟩ := hnm
    have hb1 : ¬ (b = mp_branch) := fun hh => h1 hh.symm
    by_cases hb : b = checkedout_branch
    · subst hb
      have hstep : focus_loop (b :: rest) mp_branch b counter none =
          focus_loop rest mp_branch b (counter + 1)
            (some (counter + 1)) := by
        simp [focus_loop, hb1]
      rw [hstep, focus_loop_some _ _ rest _ _ h2]
      simp [List.indexOf_cons_self]
    · have hco2 : checkedout_branch ∈ rest := by
        cases List.mem_cons.mp hco with
        | inl h => exact absurd h.symm hb
        | inr h => exact h
      have hstep : focus_loop (b :: rest) mp_branch checkedout_branch counter
          none =
          focus_loop rest mp_branch checkedout_branch (counter + 1) none := by
        simp [focus_loop, hb1, hb]
      rw [hstep, ih _ h2 hco2]
      simp only [Option.some.injEq]
      rw [List.indexOf_cons_ne _ hb]
      omega

/-- The listwalker entry at index 2 + i is the button of branch number
i. -/
theorem branch_listwalker_get (title : String) (bs : List String)
    (i : Nat) (hi : i < bs.length) :
    (branch_listwalker title bs).get? (2 + i) =
      some (UrwidItem.button (bs.get ⟨i, hi⟩)) := by
  rw [Nat.add_comm]
  simp [branch_listwalker, List.get?_eq_getElem?, List.getElem?_map,
    List.getElem?_eq_getElem hi]

/-- C9: with duplicate-free local branch names, the source branch step
pre-highlights the proposal source branch when it is a local branch —
this takes priority over the checked out branch — and otherwise the
checked out branch when that is local; the focus index set is exactly
the listwalker position of that branch button. -/
theorem source_focus_spec (local_branches : List String)
    (mp_source checkedout : String) (hnd : local_branches.Nodup) :
    (mp_source ∈ local_branches →
      compute_focus local_branches mp_source checkedout =
        some (2 + local_branches.indexOf mp_source) ∧
      (branch_listwalker "Source Branch" local_branches).get?
          (2 + local_branches.indexOf mp_source) =
        some (UrwidItem.button mp_source)) ∧
    (mp_source ∉ local_branches → checkedout ∈ local_branches →
      compute_focus local_branches mp_source checkedout =
        some (2 + local_branches.indexOf checkedout) ∧
      (branch_listwalker "Source Branch" local_branches).get?
          (2 + local_branches.indexOf checkedout) =
        some (UrwidItem.button checkedout)) := by
  constructor
  · intro hmem
    have hlt : local_branches.indexOf mp_source < local_branches.length :=
      List.indexOf_lt_length.mpr hmem
    constructor
    · exact focus_loop_mp_found mp_source checkedout local_branches 1 none
        hnd hmem
    · rw [branch_listwalker_get _ _ _ hlt, List.indexOf_get hlt]
  · intro hnm hco
    have hlt : local_branches.indexOf checkedout < local_branches.length :=
      List.indexOf_lt_length.mpr hco
    constructor
    · exact focus_loop_checkedout mp_source checkedout local_branches 1
        hnm hco
    · rw [branch_listwalker_get _ _ _ hlt, List.indexOf_get hlt]

/-- Witness for C9: with local branches main (checked out) and
feature-x, the proposal source branch feature-x wins the focus, at
listwalker index 3, where its button sits. -/
theorem source_focus_witness :
    compute_focus ["main", "feature-x"] "feature-x" "main" = some 3 ∧
    (branch_listwalker "Source Branch" ["main", "feature-x"]).get? 3 =
      some (UrwidItem.button "feature-x") :=
  (source_focus_spec ["main", "feature-x"] "feature-x" "main"
    (by decide)).1 (by decide)
